import Mathlib

/-!
Verification of `pdf_to_excel_comparer.py` (pdf_reconciler).

Shallow embedding conventions:
* Python strings are Lean `String` (a wrapper around `List Char`); the ASCII
  whitespace class models the regex `\s` and `str.strip()` (the inputs the
  program manipulates are ASCII table cells and file names).
* Python `float` values are modelled as exact rationals `Rat`; `float(s)`
  string parsing is `pyFloat?`, returning `none` where Python raises
  `ValueError` (`inf`/`nan` spellings and digit underscores are not modelled).
* Python `int(x)` on a float truncates toward zero: `ratTrunc`.
* Python dicts are association lists with unique keys in insertion order
  (`dictOfList` reproduces dict-comprehension collision semantics: first
  position, last value).
* A raised exception is `Option.none` propagating out of the function.
* `rapidfuzz.fuzz.ratio` is an opaque collaborator: every theorem is
  universally quantified over a similarity function `sim : String → String → Rat`.
-/

namespace PdfComparer

/-! ### Character classes and Python string primitives -/

/-- ASCII whitespace, the characters matched by the regex class `\s` and
stripped by `str.strip()` for the ASCII data this program handles. -/
def isPySpace (c : Char) : Bool :=
  c == ' ' || c == '\t' || c == '\n' || c == '\x0b' || c == '\x0c' || c == '\r'

/-- Characters kept by `re.sub(r'[^a-zA-Z0-9\s]', '', s)`: letters, digits,
whitespace. -/
def keepChar (c : Char) : Bool :=
  c.isAlpha || c.isDigit || isPySpace c

/-- The ASCII case table: each uppercase letter paired with its lowercase
form. -/
def ucPairs : List (Char × Char) :=
  [('A','a'), ('B','b'), ('C','c'), ('D','d'), ('E','e'), ('F','f'),
   ('G','g'), ('H','h'), ('I','i'), ('J','j'), ('K','k'), ('L','l'),
   ('M','m'), ('N','n'), ('O','o'), ('P','p'), ('Q','q'), ('R','r'),
   ('S','s'), ('T','t'), ('U','u'), ('V','v'), ('W','w'), ('X','x'),
   ('Y','y'), ('Z','z')]

/-- `str.lower()` restricted to the characters that can reach it in this
program (after the normalization filter only ASCII letters, digits and
whitespace remain). -/
def pyLower (c : Char) : Char :=
  match ucPairs.find? (fun p => p.1 == c) with
  | some p => p.2
  | none => c

/-- `str.strip()` on a character list: drop whitespace from both ends. -/
def pyStripL (l : List Char) : List Char :=
  (l.dropWhile isPySpace).rdropWhile isPySpace

/-- `str.strip()` on a `String`. -/
def pyStripS (s : String) : String :=
  ⟨pyStripL s.data⟩

/-- `normalize_string` (src lines 85-90):
`re.sub(r'[^a-zA-Z0-9\s]', '', s).strip().lower()`. -/
def normalize_string (s : String) : String :=
  ⟨(pyStripL (s.data.filter keepChar)).map pyLower⟩

theorem pyLower_of_find?_none {c : Char}
    (h : ucPairs.find? (fun p => p.1 == c) = none) : pyLower c = c := by
  unfold pyLower
  rw [h]

theorem pyLower_of_find?_some {c : Char} {p : Char × Char}
    (h : ucPairs.find? (fun p => p.1 == c) = some p) : pyLower c = p.2 := by
  unfold pyLower
  rw [h]

theorem keepChar_pyLower (c : Char) : keepChar (pyLower c) = keepChar c := by
  rcases h : ucPairs.find? (fun p => p.1 == c) with _ | p
  · rw [pyLower_of_find?_none h]
  · rw [pyLower_of_find?_some h]
    have hm := List.mem_of_find?_eq_some h
    have hc : p.1 = c := by simpa using List.find?_some h
    have hall : ∀ q ∈ ucPairs, keepChar q.2 = keepChar q.1 := by decide
    rw [← hc]
    exact hall p hm

theorem isPySpace_pyLower (c : Char) : isPySpace (pyLower c) = isPySpace c := by
  rcases h : ucPairs.find? (fun p => p.1 == c) with _ | p
  · rw [pyLower_of_find?_none h]
  · rw [pyLower_of_find?_some h]
    have hm := List.mem_of_find?_eq_some h
    have hc : p.1 = c := by simpa using List.find?_some h
    have hall : ∀ q ∈ ucPairs, isPySpace q.2 = isPySpace q.1 := by decide
    rw [← hc]
    exact hall p hm

theorem pyLower_pyLower (c : Char) : pyLower (pyLower c) = pyLower c := by
  rcases h : ucPairs.find? (fun p => p.1 == c) with _ | p
  · rw [pyLower_of_find?_none h, pyLower_of_find?_none h]
  · rw [pyLower_of_find?_some h]
    have hm := List.mem_of_find?_eq_some h
    apply pyLower_of_find?_none
    rw [List.find?_eq_none]
    intro q hq
    have hall : ∀ r ∈ ucPairs, ∀ q ∈ ucPairs, (q.1 == r.2) = false := by decide
    simpa using hall p hm q hq

theorem mem_pyStripL {c : Char} {l : List Char} (h : c ∈ pyStripL l) : c ∈ l := by
  unfold pyStripL at h
  exact (List.dropWhile_sublist _).mem ((List.rdropWhile_prefix _ _).sublist.mem h)

theorem head_dropWhile_false {α : Type} (p : α → Bool) (l : List α) {x : α}
    {xs : List α} (h : l.dropWhile p = x :: xs) : p x = false := by
  induction l with
  | nil => simp [List.dropWhile] at h
  | cons a t ih =>
    rw [List.dropWhile_cons] at h
    by_cases hp : p a = true
    · rw [if_pos hp] at h
      exact ih h
    · rw [if_neg hp] at h
      injection h with h1 h2
      subst h1
      simpa using hp

theorem pyStripL_idem (l : List Char) : pyStripL (pyStripL l) = pyStripL l := by
  unfold pyStripL
  have hb : List.dropWhile isPySpace ((l.dropWhile isPySpace).rdropWhile isPySpace) =
      (l.dropWhile isPySpace).rdropWhile isPySpace := by
    rcases hd : (l.dropWhile isPySpace).rdropWhile isPySpace with _ | ⟨x, xs⟩
    · rfl
    · rcases List.rdropWhile_prefix isPySpace (l.dropWhile isPySpace) with ⟨t, ht⟩
      rw [hd] at ht
      have hx : isPySpace x = false :=
        head_dropWhile_false isPySpace l (by rw [← ht]; rfl)
      rw [List.dropWhile_cons, if_neg (by simp [hx])]
  rw [hb, List.rdropWhile_idempotent]

theorem pyStripL_map_pyLower (l : List Char) :
    pyStripL (l.map pyLower) = (pyStripL l).map pyLower := by
  unfold pyStripL List.rdropWhile
  have hdw : ∀ m : List Char,
      List.dropWhile isPySpace (m.map pyLower) =
        (List.dropWhile isPySpace m).map pyLower := by
    intro m
    induction m with
    | nil => rfl
    | cons a t ih =>
      by_cases h : isPySpace a = true
      · simp [List.dropWhile, h, isPySpace_pyLower, ih]
      · simp [List.dropWhile, h, isPySpace_pyLower]
  rw [hdw, ← List.map_reverse, hdw, List.map_reverse]

/-- C9 helper: the output characters of `normalize_string` all satisfy
`keepChar`. -/
theorem normalize_string_keep (s : String) :
    ∀ c ∈ (normalize_string s).data, keepChar c = true := by
  intro c hc
  unfold normalize_string at hc
  simp only [List.mem_map] at hc
  rcases hc with ⟨d, hd, rfl⟩
  rw [keepChar_pyLower]
  exact List.of_mem_filter (mem_pyStripL hd)

/-- C9: `normalize` is idempotent: lower-casing, stripping non-alphanumeric
non-whitespace characters, and trimming, applied twice, equals applying it
once (src `normalize_string`, lines 85-90). -/
theorem normalize_string_idem (s : String) :
    normalize_string (normalize_string s) = normalize_string s := by
  have hdata : (normalize_string s).data =
      (pyStripL (s.data.filter keepChar)).map pyLower := rfl
  apply String.ext
  show (pyStripL (((normalize_string s).data).filter keepChar)).map pyLower =
    (normalize_string s).data
  rw [List.filter_eq_self.mpr (normalize_string_keep s), hdata,
    pyStripL_map_pyLower, pyStripL_idem, List.map_map]
  apply List.map_congr_left
  intro c _
  exact pyLower_pyLower c

/-! ### Python numeric parsing -/

/-- Value of a digit string, most significant first. -/
def digitsVal (ds : List Char) : Nat :=
  List.foldl (fun a c => a * 10 + (c.toNat - 48)) 0 ds

/-- Exact rational multiplication, written through `mkRat` so that concrete
instances evaluate inside `decide`. -/
def ratMul (a b : Rat) : Rat :=
  mkRat (a.num * b.num) (a.den * b.den)

/-- Mantissa of a Python float literal: `digits [. digits]` or `. digits`;
returns the value and the unconsumed remainder, `none` where Python raises.
The value `ip.fp` is the exact rational `(ip * 10^|fp| + fp) / 10^|fp|`. -/
def parseMantissa (cs : List Char) : Option (Rat × List Char) :=
  let ip := cs.takeWhile Char.isDigit
  let rest := cs.drop ip.length
  match rest with
  | '.' :: r2 =>
    let fp := r2.takeWhile Char.isDigit
    if ip.length = 0 ∧ fp.length = 0 then none
    else some (mkRat (digitsVal ip * 10 ^ fp.length + digitsVal fp) (10 ^ fp.length),
               r2.drop fp.length)
  | _ => if ip.length = 0 then none else some (mkRat (digitsVal ip) 1, rest)

/-- Python `float(s)` on a string: optional surrounding whitespace, optional
sign, mantissa, optional exponent. `none` models the `ValueError` Python
raises on anything else (the `inf`/`nan` spellings and digit underscores are
not modelled; the program never feeds them legitimate values). -/
def pyFloat? (s : String) : Option Rat :=
  let cs := pyStripL s.data
  let sgned : Bool × List Char :=
    match cs with
    | '+' :: r => (false, r)
    | '-' :: r => (true, r)
    | _ => (false, cs)
  match parseMantissa sgned.2 with
  | none => none
  | some (v, rest) =>
    let signed : Rat → Option Rat := fun w => some (if sgned.1 then Rat.neg w else w)
    match rest with
    | [] => signed v
    | c :: r2 =>
      if c = 'e' ∨ c = 'E' then
        let esgned : Bool × List Char :=
          match r2 with
          | '+' :: r => (false, r)
          | '-' :: r => (true, r)
          | _ => (false, r2)
        let ed := esgned.2.takeWhile Char.isDigit
        if ed.length = 0 ∨ esgned.2.drop ed.length ≠ [] then none
        else if esgned.1 then signed (ratMul v (mkRat 1 (10 ^ digitsVal ed)))
        else signed (ratMul v (mkRat (10 ^ digitsVal ed) 1))
      else none

/-- Python `int(x)` on a float: truncation toward zero (`q.num < 0` is
`q < 0`). -/
def ratTrunc (q : Rat) : Int :=
  if q.num < 0 then q.ceil else q.floor

/-- `s.replace(",", "")`. -/
def removeCommas (l : List Char) : List Char :=
  l.filter (fun c => !(c == ','))

/-! ### Record Cleaner (`extract_pdf` row loop, src lines 33-80) -/

/-- One cleaned transaction record, the dictionary built at src lines 70-80. -/
structure PdfRecord where
  number : String
  endCustomer : String
  description : String
  netUnitPrice : Rat
  qty : Int
  totalAmount : Rat
  soPo : String
  deriving DecidableEq

/-- Characters kept by `re.sub(r"[^\d.]", "", qty)`. -/
def qtyKeep (c : Char) : Bool :=
  c.isDigit || c == '.'

/-- Newline characters, the regex class `[\n\r]`. -/
def isNLChar (c : Char) : Bool :=
  c == '\n' || c == '\r'

/-- Replace every maximal run of `[\n\r]` characters with a single space
(the `[\n\r]+` alternative of the customer-cleaning `re.sub`, replacement
string a single space). The boolean tracks whether we are inside a run. -/
def replNLAux : Bool → List Char → List Char
  | _, [] => []
  | inRun, c :: rest =>
    if isNLChar c then
      if inRun then replNLAux true rest else ' ' :: replNLAux true rest
    else c :: replNLAux false rest

def replNL (cs : List Char) : List Char :=
  replNLAux false cs

/-- `re.sub(r"^\d{10}\s*|[\n\r]+", " ", customer)` (src lines 48-50): when the
string starts with 10 digits, that prefix and the following whitespace run are
replaced by a single space (the match is REPLACED by `" "`, not removed), and
every newline run in the remainder becomes a single space. -/
def subCustomer (cs : List Char) : List Char :=
  if 10 ≤ cs.length ∧ (cs.take 10).all Char.isDigit then
    ' ' :: replNL ((cs.drop 10).dropWhile isPySpace)
  else replNL cs

/-- Consume exactly `n` digits. -/
def eatDigits : Nat → List Char → Option (List Char)
  | 0, cs => some cs
  | _ + 1, [] => none
  | n + 1, c :: cs => if c.isDigit then eatDigits n cs else none

/-- Consume `\s+` (greedy; the following literal never starts with
whitespace, so greedy matching is exact). -/
def eatSpaces : List Char → Option (List Char)
  | [] => none
  | c :: cs => if isPySpace c then some (cs.dropWhile isPySpace) else none

/-- Consume a literal string. -/
def eatLit : List Char → List Char → Option (List Char)
  | [], cs => some cs
  | _ :: _, [] => none
  | a :: as, c :: cs => if a = c then eatLit as cs else none

/-- Match the anchored pattern `^\d{8}\s+Subscription\s+#\d{7}:\s+` and
return the remainder. -/
def eatSubscriptionTag (cs : List Char) : Option (List Char) := do
  let r1 ← eatDigits 8 cs
  let r2 ← eatSpaces r1
  let r3 ← eatLit "Subscription".data r2
  let r4 ← eatSpaces r3
  let r5 ← eatLit [':'] (← eatDigits 7 (← eatLit ['#'] r4))
  eatSpaces r5

/-- `re.sub(r"^\d{8}\s+Subscription\s+#\d{7}:\s+", "", description)`
(src lines 39-43). -/
def stripSubscriptionTag (cs : List Char) : List Char :=
  match eatSubscriptionTag cs with
  | some rest => rest
  | none => cs

/-- Clean one raw table row (the body of the `for row in data_rows` loop,
src lines 33-80). The caller has already checked `len(row) >= 11`, so the
`getD` defaults are never used on real input; `none` models a raised
`ValueError` from `float(...)`. Python cell truthiness: an empty cell and a
`None` cell both behave as the empty string here. The double conversion
`int(float(...))` at lines 57/58/76 nets to a single truncation. -/
def cleanRow (row : List String) : Option PdfRecord :=
  let cell := fun (i : Nat) => row.getD i ""
  let cleanedDescription : String := ⟨stripSubscriptionTag (pyStripL (cell 4).data)⟩
  let cleanedCustomer : String := ⟨subCustomer (pyStripL (cell 1).data)⟩
  let cleanedQty : List Char := (pyStripL (cell 8).data).filter qtyKeep
  match (if cleanedQty.isEmpty then some 0 else (pyFloat? ⟨cleanedQty⟩).map ratTrunc) with
  | none => none
  | some q =>
    match pyFloat? ⟨removeCommas (if pyStripS (cell 9) = "" then "0.00" else pyStripS (cell 9)).data⟩ with
    | none => none
    | some price =>
      match pyFloat? ⟨removeCommas (if pyStripS (cell 10) = "" then "0.00" else pyStripS (cell 10)).data⟩ with
      | none => none
      | some total =>
        some { number := cell 0
               endCustomer := cleanedCustomer
               description := cleanedDescription
               netUnitPrice := price
               qty := q
               totalAmount := total
               soPo := pyStripS (cell 5) }

/-- The numeric fields of a cleaned record. -/
def numFields (r : PdfRecord) : Int × Rat × Rat :=
  (r.qty, r.netUnitPrice, r.totalAmount)

/-- The scenario row of the specification (after header-skip). -/
def c3Row : List String :=
  ["1001", "9876543210 Acme Corp", "", "",
   "20180101 Subscription #1234567: Widget Pro", "PO-55", "", "",
   "10", "25.00", "250.00"]

/-- C3 counterexample: on the scenario row the cleaner does NOT produce
`entity_name = "Acme Corp"`: the regex `re.sub(r"^\d{10}\s*|[\n\r]+", " ", s)`
replaces the ten-digit prefix and its trailing whitespace with a single
space instead of deleting them, so the entity name keeps a leading space. -/
theorem c3_entity_name_cex :
    (cleanRow c3Row).map PdfRecord.endCustomer = some " Acme Corp" ∧
      (" Acme Corp" : String) ≠ "Acme Corp" := by
  constructor
  · decide
  · decide

/-- C3 (amended): cleaning the scenario row yields
`entity_name = " Acme Corp"` (with the leading space produced by the
replacement), `description = "Widget Pro"`, `quantity = 10`,
`unit_price = 25.00`, `total_amount = 250.00` (src `extract_pdf`,
lines 33-80). -/
theorem c3_scenario_clean_row :
    cleanRow c3Row =
      some { number := "1001", endCustomer := " Acme Corp",
             description := "Widget Pro", netUnitPrice := 25, qty := 10,
             totalAmount := 250, soPo := "PO-55" } := by
  decide

/-- C4 counterexample: an 11-cell row whose quantity cell is `"."` stays
nonempty after stripping non-numeric characters, and `float(".")` raises, so
cleaning fails rather than defaulting the field to zero. -/
theorem c4_unparseable_qty_cex :
    cleanRow ["1", "", "", "", "", "", "", "", ".", "", ""] = none ∧
      (["1", "", "", "", "", "", "", "", ".", "", ""] : List String).length = 11 := by
  constructor
  · decide
  · decide

/-- C4 (amended): cleaning never raises on the numeric fields provided each
numeric cell is blank after cleanup: a quantity cell that strips to the empty
string, and blank unit-price and total-amount cells, default to zero rather
than raising (src lines 52-67); a cell left nonempty but unparseable by
`float` after cleanup raises instead (see the counterexample). -/
theorem c4_blank_numerics_default_zero (row : List String)
    (hq : (pyStripL (row.getD 8 "").data).filter qtyKeep = [])
    (hp : pyStripS (row.getD 9 "") = "")
    (ht : pyStripS (row.getD 10 "") = "") :
    (cleanRow row).map numFields = some (0, 0, 0) := by
  simp only [cleanRow, hq, hp, ht]
  rfl

theorem c4_blank_numerics_default_zero_witness :
    (pyStripL ((["1", "", "", "", "", "", "", "", "", "", ""] : List String).getD 8 "").data).filter qtyKeep = [] ∧
      pyStripS ((["1", "", "", "", "", "", "", "", "", "", ""] : List String).getD 9 "") = "" ∧
      pyStripS ((["1", "", "", "", "", "", "", "", "", "", ""] : List String).getD 10 "") = "" ∧
      (cleanRow ["1", "", "", "", "", "", "", "", "", "", ""]).map numFields = some (0, 0, 0) :=
  ⟨by decide, by decide, by decide,
    c4_blank_numerics_default_zero ["1", "", "", "", "", "", "", "", "", "", ""]
      (by decide) (by decide) (by decide)⟩

/-! ### Table Resolver (`find_matching_csv_files`, src lines 97-142) -/

/-- Python `str.endswith(suffix)`, written on character lists so that
concrete instances evaluate inside `decide`. -/
def strEndsWith (s suffix : String) : Bool :=
  suffix.data.isSuffixOf s.data

/-- `os.path.splitext(filename)[0]`: the file name with its last extension
removed; a leading run of dots is part of the name, never an extension. -/
def splitextBase (s : String) : String :=
  let cs := s.data
  let lead := (cs.takeWhile (fun c => c == '.')).length
  let rest := cs.drop lead
  let afterDot := rest.reverse.dropWhile (fun c => !(c == '.'))
  match afterDot with
  | [] => s
  | _ :: r => ⟨cs.take lead ++ r.reverse⟩

/-- `re.sub(r"\s*\d+$", "", s)`: remove a trailing digit run and the
whitespace before it. -/
def stripTrailingNum (s : String) : String :=
  match s.data.reverse with
  | [] => s
  | c :: _ =>
    if c.isDigit then
      ⟨((s.data.reverse.dropWhile Char.isDigit).dropWhile isPySpace).reverse⟩
    else s

/-- `os.path.join(directory, filename)` for the relative names this program
produces. -/
def pathJoin (d f : String) : String :=
  d ++ "/" ++ f

/-- The loop of `find_matching_csv_files` (src lines 110-142): `acc` is the
`matching_files` accumulator, `nc` the normalized company name and `sim` the
opaque `fuzz.ratio`. An exact normalized match returns immediately; fuzzy
matches above 80 accumulate; at the end at most the first fuzzy match is
returned (`matching_files[:1]`). -/
def fmcfAux (sim : String → String → Rat) (d nc : String) (acc : List String) :
    List String → List String
  | [] => acc.take 1
  | f :: rest =>
    if strEndsWith f ".csv" then
      let nf := normalize_string (splitextBase f)
      if nc = nf then [pathJoin d f]
      else if (80 : Rat) < sim nc nf ∨ (80 : Rat) < sim nc (stripTrailingNum nf) then
        fmcfAux sim d nc (acc ++ [pathJoin d f]) rest
      else fmcfAux sim d nc acc rest
    else fmcfAux sim d nc acc rest

/-- `find_matching_csv_files(company_name, csv_directory)` with the directory
listing made explicit (`files` is `os.listdir` in enumeration order) and the
fuzzy scorer a parameter. -/
def find_matching_csv_files (sim : String → String → Rat) (d company : String)
    (files : List String) : List String :=
  fmcfAux sim d (normalize_string company) [] files

theorem fmcfAux_exact (sim : String → String → Rat) (d nc : String)
    (files : List String) (f₀ : String)
    (h : files.find? (fun f =>
        strEndsWith f ".csv" && (nc == normalize_string (splitextBase f))) = some f₀) :
    ∀ acc : List String, fmcfAux sim d nc acc files = [pathJoin d f₀] := by
  induction files with
  | nil => simp [List.find?] at h
  | cons f rest ih =>
    intro acc
    by_cases hcsv : strEndsWith f ".csv" = true
    · by_cases heq : nc = normalize_string (splitextBase f)
      · have : f = f₀ := by
          rw [List.find?_cons_of_pos _ (by simp [hcsv, heq])] at h
          simpa using h
        subst this
        simp [fmcfAux, hcsv, heq]
      · rw [List.find?_cons_of_neg _ (by simp [heq])] at h
        simp only [fmcfAux, hcsv, if_true, if_neg heq]
        split
        · exact ih h _
        · exact ih h _
    · rw [List.find?_cons_of_neg _ (by simp [hcsv])] at h
      simp only [fmcfAux, hcsv, if_false]
      exact ih h acc

/-- C2: if some listed `.csv` file's base name normalizes exactly to the
normalized entity name, the resolver returns exactly that file — the first
such file in enumeration order — regardless of the fuzzy scores of every
other file (the scorer `sim` is arbitrary here, so even a different file
scoring 100 cannot displace it); the exact match short-circuits
(src lines 119-122). -/
theorem c2_exact_match_precedence (sim : String → String → Rat)
    (d company : String) (files : List String) (f₀ : String)
    (h : files.find? (fun f =>
        strEndsWith f ".csv" &&
          (normalize_string company == normalize_string (splitextBase f))) = some f₀) :
    find_matching_csv_files sim d company files = [pathJoin d f₀] :=
  fmcfAux_exact sim d (normalize_string company) files f₀ h []

/-- C2 witness: with a scorer that always returns 100, the earlier file
"beta corp.csv" fuzzy-matches, yet the later exact match "acme corp.csv"
is returned alone. -/
theorem c2_exact_match_precedence_witness :
    (["beta corp.csv", "acme corp.csv"] : List String).find? (fun f =>
        strEndsWith f ".csv" &&
          (normalize_string "Acme Corp." == normalize_string (splitextBase f))) =
      some "acme corp.csv" ∧
    find_matching_csv_files (fun _ _ => (100 : Rat)) "dir" "Acme Corp."
        ["beta corp.csv", "acme corp.csv"] = [pathJoin "dir" "acme corp.csv"] :=
  ⟨by decide,
    c2_exact_match_precedence (fun _ _ => (100 : Rat)) "dir" "Acme Corp."
      ["beta corp.csv", "acme corp.csv"] "acme corp.csv" (by decide)⟩

/-! ### Candidate Matcher (`find_matching_additions`, src lines 180-227) -/

/-- A reference-table row as loaded by `csv.DictReader`: column label to raw
string value, in column order. -/
abbrev RefRow := List (String × String)

/-- Insert one binding with Python-dict collision semantics: an existing key
keeps its position and receives the new value; a new key is appended. -/
def dictInsert : List (String × String) → String × String → List (String × String)
  | [], kv => [kv]
  | (k, v) :: rest, kv =>
    if k = kv.1 then (k, kv.2) :: rest else (k, v) :: dictInsert rest kv

/-- Build a Python dict from bindings in order. -/
def dictOfList (l : List (String × String)) : List (String × String) :=
  List.foldl dictInsert [] l

/-- `{key.strip(): value for key, value in row.items()}` (src line 199). -/
def stripKeys (row : RefRow) : RefRow :=
  dictOfList (row.map (fun kv => (pyStripS kv.1, kv.2)))

/-- `row.get(k)`: first binding of `k` (keys are unique after
`dictOfList`). -/
def lookupStr (l : List (String × String)) (k : String) : Option String :=
  (l.find? (fun kv => kv.1 == k)).map (fun kv => kv.2)

/-- `needle in hay` on character lists (Python substring test). -/
def containsSub (needle hay : List Char) : Bool :=
  hay.tails.any (fun t => needle.isPrefixOf t)

/-- `needle in label.lower()`: the case-insensitive substring test used to
locate the cost and quantity columns (src lines 204-205). -/
def labelHas (needle : String) (k : String) : Bool :=
  containsSub needle.data (k.data.map pyLower)

/-- `next((col for col in row.keys() if "cost" in col.lower()), None)`. -/
def findCostCol (row : RefRow) : Option String :=
  (row.find? (fun kv => labelHas "cost" kv.1)).map (fun kv => kv.1)

/-- `next((col for col in row.keys() if "quantity" in col.lower()), None)`. -/
def findQtyCol (row : RefRow) : Option String :=
  (row.find? (fun kv => labelHas "quantity" kv.1)).map (fun kv => kv.1)

/-- `row.get(cost_column, "0").replace(",", "") if cost_column else "0"`
(src line 209). -/
def costString (row : RefRow) : String :=
  match findCostCol row with
  | some c => ⟨removeCommas (((lookupStr row c).getD "0")).data⟩
  | none => "0"

/-- `row.get(qty_column, "0").replace(",", "") if qty_column else "0"`
(src line 210). -/
def qtyString (row : RefRow) : String :=
  match findQtyCol row with
  | some c => ⟨removeCommas (((lookupStr row c).getD "0")).data⟩
  | none => "0"

/-- The fields kept in a match's output projection (src line 194). -/
def selectedFields : List String :=
  ["Description", "Unit Cost", "Total Quantity", "Agreement Name"]

/-- One candidate: the projected reference-row fields and the fuzzy
relevance score (src line 224). -/
structure MatchCand where
  data : List (String × String)
  relevance : Rat
  deriving DecidableEq

/-- Build the candidate appended for a qualifying stripped row: project the
row to `selectedFields` and score the normalized descriptions (src lines
201, 220-224; a missing Description falls back to the sentinel). -/
def mkCand (sim : String → String → Rat) (pdfDesc : String) (row : RefRow) : MatchCand :=
  { data := row.filter (fun kv => selectedFields.contains kv.1)
    relevance := sim pdfDesc
      (normalize_string ((lookupStr row "Description").getD "No Description Found")) }

/-- One iteration of the matcher loop on a raw reference row (src lines
197-224): strip the keys, locate the cost/quantity columns (absent columns
default the value string to "0"), parse both numbers (`none` models the
`ValueError` from `int(float(...))`/`float(...)`; the quantity is parsed
first, at line 212), and when both equal the record's values produce the
candidate. `some none` is a non-qualifying row; `some (some m)` a
candidate. -/
def processRow (sim : String → String → Rat) (pdfDesc : String) (pdfCost : Rat)
    (pdfQty : Int) (row0 : RefRow) : Option (Option MatchCand) :=
  let row := stripKeys row0
  match pyFloat? (qtyString row) with
  | none => none
  | some q =>
    match pyFloat? (costString row) with
    | none => none
    | some c =>
      if c = pdfCost ∧ ratTrunc q = pdfQty then some (some (mkCand sim pdfDesc row))
      else some none

/-- The `matches` list accumulated by the loop before sorting, `none` when
some row raised. -/
def collectMatches (sim : String → String → Rat) (pdfDesc : String)
    (pdfCost : Rat) (pdfQty : Int) : List RefRow → Option (List MatchCand)
  | [] => some []
  | r :: rs =>
    match processRow sim pdfDesc pdfCost pdfQty r with
    | none => none
    | some o =>
      (collectMatches sim pdfDesc pdfCost pdfQty rs).map (fun t => o.toList ++ t)

/-- Descending relevance: `a` may come before `b`. -/
def relGE (a b : MatchCand) : Prop :=
  b.relevance ≤ a.relevance

instance : DecidableRel relGE :=
  fun a b => inferInstanceAs (Decidable (b.relevance ≤ a.relevance))

instance : IsTotal MatchCand relGE :=
  ⟨fun a b => le_total b.relevance a.relevance⟩

instance : IsTrans MatchCand relGE :=
  ⟨fun _ _ _ h1 h2 => le_trans h2 h1⟩

/-- `sorted(matches, key=lambda x: x["relevance"], reverse=True)`
(src line 227): a stable descending sort; any two stable sorts under the
same key agree, so insertion sort is the model. -/
def find_matching_additions (sim : String → String → Rat) (pr : PdfRecord)
    (rows : List RefRow) : Option (List MatchCand) :=
  (collectMatches sim (normalize_string pr.description) pr.netUnitPrice pr.qty rows).map
    (List.insertionSort relGE)

theorem processRow_some (sim : String → String → Rat) (pdfDesc : String)
    (pdfCost : Rat) (pdfQty : Int) (row : RefRow) (m : MatchCand)
    (h : processRow sim pdfDesc pdfCost pdfQty row = some (some m)) :
    pyFloat? (costString (stripKeys row)) = some pdfCost ∧
      (pyFloat? (qtyString (stripKeys row))).map ratTrunc = some pdfQty ∧
      m = mkCand sim pdfDesc (stripKeys row) := by
  simp only [processRow] at h
  rcases hq : pyFloat? (qtyString (stripKeys row)) with _ | q
  · rw [hq] at h
    exact absurd h (by simp)
  · simp only [hq] at h
    rcases hc : pyFloat? (costString (stripKeys row)) with _ | c
    · rw [hc] at h
      exact absurd h (by simp)
    · simp only [hc] at h
      by_cases hg : c = pdfCost ∧ ratTrunc q = pdfQty
      · rw [if_pos hg] at h
        refine ⟨by rw [hg.1], by simp [hg.2], ?_⟩
        injection h with h1
        injection h1 with h2
        exact h2.symm
      · rw [if_neg hg] at h
        exact absurd h (by simp)

theorem collectMatches_mem (sim : String → String → Rat) (pdfDesc : String)
    (pdfCost : Rat) (pdfQty : Int) :
    ∀ (rows : List RefRow) (pre : List MatchCand),
      collectMatches sim pdfDesc pdfCost pdfQty rows = some pre →
      ∀ m ∈ pre, ∃ row ∈ rows, processRow sim pdfDesc pdfCost pdfQty row = some (some m) := by
  intro rows
  induction rows with
  | nil =>
    intro pre hp m hm
    simp only [collectMatches] at hp
    injection hp with hp1
    subst hp1
    simp at hm
  | cons r rs ih =>
    intro pre hp m hm
    simp only [collectMatches] at hp
    rcases hr : processRow sim pdfDesc pdfCost pdfQty r with _ | o
    · rw [hr] at hp
      exact absurd hp (by simp)
    · rw [hr] at hp
      rcases ht : collectMatches sim pdfDesc pdfCost pdfQty rs with _ | t
      · rw [ht] at hp
        exact absurd hp (by simp)
      · rw [ht] at hp
        have hp1 : o.toList ++ t = pre := by simpa using hp
        subst hp1
        rcases List.mem_append.mp hm with hmo | hmt
        · rcases o with _ | m'
          · simp [Option.toList] at hmo
          · have : m = m' := by simpa [Option.toList] using hmo
            subst this
            exact ⟨r, List.mem_cons_self _ _, hr⟩
        · rcases ih t ht m hmt with ⟨row, hrow, hpr⟩
          exact ⟨row, List.mem_cons_of_mem _ hrow, hpr⟩

theorem collectMatches_mem_rev (sim : String → String → Rat) (pdfDesc : String)
    (pdfCost : Rat) (pdfQty : Int) :
    ∀ (rows : List RefRow) (pre : List MatchCand) (row : RefRow) (m : MatchCand),
      collectMatches sim pdfDesc pdfCost pdfQty rows = some pre →
      row ∈ rows → processRow sim pdfDesc pdfCost pdfQty row = some (some m) →
      m ∈ pre := by
  intro rows
  induction rows with
  | nil =>
    intro pre row m _ hrow
    simp at hrow
  | cons r rs ih =>
    intro pre row m hp hrow hpr
    simp only [collectMatches] at hp
    rcases hr : processRow sim pdfDesc pdfCost pdfQty r with _ | o
    · rw [hr] at hp
      exact absurd hp (by simp)
    · rw [hr] at hp
      rcases ht : collectMatches sim pdfDesc pdfCost pdfQty rs with _ | t
      · rw [ht] at hp
        exact absurd hp (by simp)
      · rw [ht] at hp
        have hp1 : o.toList ++ t = pre := by simpa using hp
        subst hp1
        rcases List.mem_cons.mp hrow with hre | hrs
        · subst hre
          rw [hr] at hpr
          injection hpr with hpr1
          subst hpr1
          simp [Option.toList]
        · exact List.mem_append.mpr (Or.inr (ih t row m ht hrs hpr))

/-- C1: every candidate returned by the matcher arises from a reference row
whose parsed cost exactly equals the record's unit price and whose parsed
(truncated) quantity exactly equals the record's quantity — so a row whose
parsed cost or quantity differs from the record by any nonzero amount never
appears in the candidate list, whatever the description scorer `sim` says
(src gate at line 218). -/
theorem c1_gate_exactness (sim : String → String → Rat) (pr : PdfRecord)
    (rows : List RefRow) (res : List MatchCand)
    (h : find_matching_additions sim pr rows = some res) :
    ∀ m ∈ res, ∃ row ∈ rows,
      pyFloat? (costString (stripKeys row)) = some pr.netUnitPrice ∧
      (pyFloat? (qtyString (stripKeys row))).map ratTrunc = some pr.qty ∧
      m = mkCand sim (normalize_string pr.description) (stripKeys row) := by
  intro m hm
  unfold find_matching_additions at h
  rcases hcol : collectMatches sim (normalize_string pr.description) pr.netUnitPrice
      pr.qty rows with _ | pre
  · rw [hcol] at h
    exact absurd h (by simp)
  · rw [hcol] at h
    have hres : res = List.insertionSort relGE pre := by simpa using h.symm
    subst hres
    have hm' : m ∈ pre := (List.mem_insertionSort relGE).mp hm
    rcases collectMatches_mem sim _ _ _ rows pre hcol m hm' with ⟨row, hrow, hpr⟩
    rcases processRow_some sim _ _ _ row m hpr with ⟨h1, h2, h3⟩
    exact ⟨row, hrow, h1, h2, h3⟩

/-- C1 witness: a single row with matching cost 5 and quantity 2 against a
record with unit price 5 and quantity 2; its candidate is in the result and
the theorem recovers the qualifying row. -/
theorem c1_gate_exactness_witness :
    find_matching_additions (fun _ _ => (7 : Rat))
        { number := "1", endCustomer := "c", description := "desc",
          netUnitPrice := 5, qty := 2, totalAmount := 10, soPo := "p" }
        [[("Unit Cost", "5"), ("Total Quantity", "2"), ("Description", "x")]] =
      some [mkCand (fun _ _ => (7 : Rat)) (normalize_string "desc")
        (stripKeys [("Unit Cost", "5"), ("Total Quantity", "2"), ("Description", "x")])] ∧
    (∃ row ∈ ([[("Unit Cost", "5"), ("Total Quantity", "2"), ("Description", "x")]] : List RefRow),
      pyFloat? (costString (stripKeys row)) = some ((5 : Rat)) ∧
      (pyFloat? (qtyString (stripKeys row))).map ratTrunc = some ((2 : Int)) ∧
      mkCand (fun _ _ => (7 : Rat)) (normalize_string "desc")
        (stripKeys [("Unit Cost", "5"), ("Total Quantity", "2"), ("Description", "x")]) =
        mkCand (fun _ _ => (7 : Rat)) (normalize_string "desc") (stripKeys row)) :=
  ⟨by decide,
    c1_gate_exactness (fun _ _ => (7 : Rat))
      { number := "1", endCustomer := "c", description := "desc",
        netUnitPrice := 5, qty := 2, totalAmount := 10, soPo := "p" }
      [[("Unit Cost", "5"), ("Total Quantity", "2"), ("Description", "x")]]
      [mkCand (fun _ _ => (7 : Rat)) (normalize_string "desc")
        (stripKeys [("Unit Cost", "5"), ("Total Quantity", "2"), ("Description", "x")])]
      (by decide) _ (by decide)⟩

/-- The boolean test `relevance = v`, the key class used to state sort
stability. -/
def relEq (v : Rat) (m : MatchCand) : Bool :=
  decide (m.relevance = v)

/-- Descending-sort stability on a per-relevance-value filter: inserting an
element commutes with filtering at any fixed relevance value. -/
theorem filter_orderedInsert (v : Rat) (a : MatchCand) (l : List MatchCand) :
    (List.orderedInsert relGE a l).filter (relEq v) = (a :: l).filter (relEq v) := by
  induction l with
  | nil => rfl
  | cons b t ih =>
    by_cases hab : relGE a b
    · simp [List.orderedInsert, hab]
    · have hord : List.orderedInsert relGE a (b :: t) = b :: List.orderedInsert relGE a t := by
        simp [List.orderedInsert, hab]
      rw [hord, List.filter_cons, ih, List.filter_cons, List.filter_cons, List.filter_cons]
      by_cases ha : relEq v a = true
      · by_cases hb : relEq v b = true
        · exfalso
          have hav : a.relevance = v := of_decide_eq_true ha
          have hbv : b.relevance = v := of_decide_eq_true hb
          exact hab (le_of_eq (hbv.trans hav.symm))
        · simp [ha, hb]
      · by_cases hb : relEq v b = true
        · simp [ha, hb]
        · simp [ha, hb]

theorem filter_insertionSort (v : Rat) (l : List MatchCand) :
    (List.insertionSort relGE l).filter (relEq v) = l.filter (relEq v) := by
  induction l with
  | nil => rfl
  | cons a t ih =>
    rw [List.insertionSort, filter_orderedInsert, List.filter_cons, ih, List.filter_cons]

/-- C5: the candidate list is sorted by non-increasing relevance; for every
relevance value the candidates carrying it appear exactly as they were
encountered in the reference rows (stability of the sort); the result is a
permutation of the gate-qualifying candidates (no cap); and every qualifying
row's candidate appears in the result (src lines 226-227). -/
theorem c5_ranking_stability (sim : String → String → Rat) (pr : PdfRecord)
    (rows : List RefRow) (pre res : List MatchCand)
    (hc : collectMatches sim (normalize_string pr.description) pr.netUnitPrice
      pr.qty rows = some pre)
    (h : find_matching_additions sim pr rows = some res) :
    List.Pairwise relGE res ∧
      (∀ v : Rat, res.filter (relEq v) = pre.filter (relEq v)) ∧
      res.Perm pre ∧
      (∀ row ∈ rows, ∀ m : MatchCand,
        processRow sim (normalize_string pr.description) pr.netUnitPrice pr.qty row =
          some (some m) → m ∈ res) := by
  have hres : res = List.insertionSort relGE pre := by
    unfold find_matching_additions at h
    rw [hc] at h
    simpa using h.symm
  subst hres
  refine ⟨List.sorted_insertionSort relGE pre, fun v => filter_insertionSort v pre,
    List.perm_insertionSort relGE pre, ?_⟩
  intro row hrow m hpr
  exact (List.mem_insertionSort relGE).mpr
    (collectMatches_mem_rev sim _ _ _ rows pre row m hc hrow hpr)

/-- C5 witness: two qualifying rows with equal relevance (constant scorer)
keep encounter order; the sorted result is a permutation of the collected
list; the second row's candidate is present. -/
theorem c5_ranking_stability_witness :
    collectMatches (fun _ _ => (50 : Rat)) (normalize_string "d") (5 : Rat) (2 : Int)
        [[("Unit Cost", "5"), ("Total Quantity", "2"), ("Description", "a")],
         [("Unit Cost", "5"), ("Total Quantity", "2"), ("Description", "b")]] =
      some [mkCand (fun _ _ => (50 : Rat)) (normalize_string "d")
              (stripKeys [("Unit Cost", "5"), ("Total Quantity", "2"), ("Description", "a")]),
            mkCand (fun _ _ => (50 : Rat)) (normalize_string "d")
              (stripKeys [("Unit Cost", "5"), ("Total Quantity", "2"), ("Description", "b")])] ∧
    find_matching_additions (fun _ _ => (50 : Rat))
        { number := "1", endCustomer := "c", description := "d",
          netUnitPrice := 5, qty := 2, totalAmount := 10, soPo := "p" }
        [[("Unit Cost", "5"), ("Total Quantity", "2"), ("Description", "a")],
         [("Unit Cost", "5"), ("Total Quantity", "2"), ("Description", "b")]] =
      some [mkCand (fun _ _ => (50 : Rat)) (normalize_string "d")
              (stripKeys [("Unit Cost", "5"), ("Total Quantity", "2"), ("Description", "a")]),
            mkCand (fun _ _ => (50 : Rat)) (normalize_string "d")
              (stripKeys [("Unit Cost", "5"), ("Total Quantity", "2"), ("Description", "b")])] ∧
    List.Pairwise relGE
      [mkCand (fun _ _ => (50 : Rat)) (normalize_string "d")
          (stripKeys [("Unit Cost", "5"), ("Total Quantity", "2"), ("Description", "a")]),
        mkCand (fun _ _ => (50 : Rat)) (normalize_string "d")
          (stripKeys [("Unit Cost", "5"), ("Total Quantity", "2"), ("Description", "b")])] := by
  have hc : collectMatches (fun _ _ => (50 : Rat)) (normalize_string "d") (5 : Rat) (2 : Int)
      [[("Unit Cost", "5"), ("Total Quantity", "2"), ("Description", "a")],
       [("Unit Cost", "5"), ("Total Quantity", "2"), ("Description", "b")]] =
      some [mkCand (fun _ _ => (50 : Rat)) (normalize_string "d")
              (stripKeys [("Unit Cost", "5"), ("Total Quantity", "2"), ("Description", "a")]),
            mkCand (fun _ _ => (50 : Rat)) (normalize_string "d")
              (stripKeys [("Unit Cost", "5"), ("Total Quantity", "2"), ("Description", "b")])] := by
    decide
  have hfind : find_matching_additions (fun _ _ => (50 : Rat))
      { number := "1", endCustomer := "c", description := "d",
        netUnitPrice := 5, qty := 2, totalAmount := 10, soPo := "p" }
      [[("Unit Cost", "5"), ("Total Quantity", "2"), ("Description", "a")],
       [("Unit Cost", "5"), ("Total Quantity", "2"), ("Description", "b")]] =
      some [mkCand (fun _ _ => (50 : Rat)) (normalize_string "d")
              (stripKeys [("Unit Cost", "5"), ("Total Quantity", "2"), ("Description", "a")]),
            mkCand (fun _ _ => (50 : Rat)) (normalize_string "d")
              (stripKeys [("Unit Cost", "5"), ("Total Quantity", "2"), ("Description", "b")])] := by
    decide
  exact ⟨hc, hfind, (c5_ranking_stability (fun _ _ => (50 : Rat))
    { number := "1", endCustomer := "c", description := "d",
      netUnitPrice := 5, qty := 2, totalAmount := 10, soPo := "p" }
    [[("Unit Cost", "5"), ("Total Quantity", "2"), ("Description", "a")],
     [("Unit Cost", "5"), ("Total Quantity", "2"), ("Description", "b")]]
    _ _ hc hfind).1⟩

/-- C7: a reference row none of whose (stripped) column labels contains
"cost" and none of whose labels contains "quantity" has its cost and
quantity treated as zero — not an error — and against a record with
`unit_price = 0` and `quantity = 0` the `0 == 0` gate passes, so the row
qualifies as a candidate (src lines 203-218). -/
theorem c7_zero_default_candidate (sim : String → String → Rat) (pr : PdfRecord)
    (row : RefRow) (hc : findCostCol (stripKeys row) = none)
    (hq : findQtyCol (stripKeys row) = none)
    (hp : pr.netUnitPrice = 0) (hqty : pr.qty = 0) :
    find_matching_additions sim pr [row] =
      some [mkCand sim (normalize_string pr.description) (stripKeys row)] := by
  have hcs : costString (stripKeys row) = "0" := by
    unfold costString
    rw [hc]
  have hqs : qtyString (stripKeys row) = "0" := by
    unfold qtyString
    rw [hq]
  have hpr : processRow sim (normalize_string pr.description) pr.netUnitPrice pr.qty row =
      some (some (mkCand sim (normalize_string pr.description) (stripKeys row))) := by
    simp only [processRow, hcs, hqs, hp, hqty]
    simp only [show pyFloat? "0" = some (0 : Rat) from by decide]
    rw [if_pos ⟨trivial, by decide⟩]
  unfold find_matching_additions
  simp only [collectMatches, hpr]
  simp [Option.toList, List.insertionSort, List.orderedInsert]

/-- C7 witness: a row carrying only a Description column qualifies against
the all-zero record. -/
theorem c7_zero_default_candidate_witness :
    findCostCol (stripKeys [("Description", "x")]) = none ∧
      findQtyCol (stripKeys [("Description", "x")]) = none ∧
      find_matching_additions (fun _ _ => (100 : Rat))
          { number := "1", endCustomer := "c", description := "x",
            netUnitPrice := 0, qty := 0, totalAmount := 0, soPo := "" }
          [[("Description", "x")]] =
        some [mkCand (fun _ _ => (100 : Rat)) (normalize_string "x")
          (stripKeys [("Description", "x")])] :=
  ⟨by decide, by decide,
    c7_zero_default_candidate (fun _ _ => (100 : Rat))
      { number := "1", endCustomer := "c", description := "x",
        netUnitPrice := 0, qty := 0, totalAmount := 0, soPo := "" }
      [("Description", "x")] (by decide) (by decide) rfl rfl⟩

/-! ### `find_unmatched_pdf_records` (src lines 252-267) -/

/-- The record loop of `find_unmatched_pdf_records`, with the extracted
records given directly (`extract_pdf` is the PDF-reading collaborator) and
`csvFor` standing for `extract_matching_csv_data company csv_directory` —
during one run the directory is fixed, so the loaded reference rows are a
function of the company name. A record is kept exactly when its matcher
returns no candidates; `none` models an exception escaping the loop. -/
def find_unmatched_pdf_records (sim : String → String → Rat)
    (csvFor : String → List RefRow) : List PdfRecord → Option (List PdfRecord)
  | [] => some []
  | r :: rs =>
    match find_matching_additions sim r (csvFor r.endCustomer) with
    | none => none
    | some ms =>
      (find_unmatched_pdf_records sim csvFor rs).map
        (fun t => if ms.isEmpty then r :: t else t)

/-- C10: the "find unmatched records" entry point applies no deduplication:
its result is exactly the input filtered to the records whose matcher
produced zero candidates, in input order — so a record whose id duplicates an
earlier record's id is still reported (src lines 258-267: no `seen` set). -/
theorem c10_unmatched_no_dedup (sim : String → String → Rat)
    (csvFor : String → List RefRow) (records : List PdfRecord)
    (res : List PdfRecord)
    (h : find_unmatched_pdf_records sim csvFor records = some res) :
    res = records.filter
      (fun r => decide (find_matching_additions sim r (csvFor r.endCustomer) = some [])) := by
  induction records generalizing res with
  | nil =>
    simp only [find_unmatched_pdf_records] at h
    injection h with h1
    subst h1
    rfl
  | cons r rs ih =>
    simp only [find_unmatched_pdf_records] at h
    rcases hf : find_matching_additions sim r (csvFor r.endCustomer) with _ | ms
    · rw [hf] at h
      exact absurd h (by simp)
    · rw [hf] at h
      rcases ht : find_unmatched_pdf_records sim csvFor rs with _ | t
      · rw [ht] at h
        exact absurd h (by simp)
      · rw [ht] at h
        have h1 : (if ms.isEmpty then r :: t else t) = res := by simpa using h
        subst h1
        rw [List.filter_cons, ih t ht]
        by_cases hms : ms = []
        · subst hms
          rw [if_pos (by decide), if_pos (by rw [hf]; decide)]
        · rw [if_neg (by simpa [List.isEmpty_iff] using hms),
            if_neg (by simp [hf, hms])]

/-- C10 witness: two records with the same id, no reference rows — both are
reported unmatched, in order. -/
theorem c10_unmatched_no_dedup_witness :
    find_unmatched_pdf_records (fun _ _ => (0 : Rat)) (fun _ => [])
        [{ number := "9", endCustomer := "c", description := "d",
           netUnitPrice := 0, qty := 0, totalAmount := 0, soPo := "p" },
         { number := "9", endCustomer := "c", description := "d",
           netUnitPrice := 0, qty := 0, totalAmount := 0, soPo := "p" }] =
      some [{ number := "9", endCustomer := "c", description := "d",
              netUnitPrice := 0, qty := 0, totalAmount := 0, soPo := "p" },
            { number := "9", endCustomer := "c", description := "d",
              netUnitPrice := 0, qty := 0, totalAmount := 0, soPo := "p" }] ∧
    ([{ number := "9", endCustomer := "c", description := "d",
        netUnitPrice := 0, qty := 0, totalAmount := 0, soPo := "p" },
      { number := "9", endCustomer := "c", description := "d",
        netUnitPrice := 0, qty := 0, totalAmount := 0, soPo := "p" }] : List PdfRecord) =
      ([{ number := "9", endCustomer := "c", description := "d",
          netUnitPrice := 0, qty := 0, totalAmount := 0, soPo := "p" },
        { number := "9", endCustomer := "c", description := "d",
          netUnitPrice := 0, qty := 0, totalAmount := 0, soPo := "p" }] : List PdfRecord).filter
        (fun r => decide (find_matching_additions (fun _ _ => (0 : Rat)) r
          ((fun _ => ([] : List RefRow)) r.endCustomer) = some [])) :=
  ⟨by decide,
    c10_unmatched_no_dedup (fun _ _ => (0 : Rat)) (fun _ => [])
      [{ number := "9", endCustomer := "c", description := "d",
         netUnitPrice := 0, qty := 0, totalAmount := 0, soPo := "p" },
       { number := "9", endCustomer := "c", description := "d",
         netUnitPrice := 0, qty := 0, totalAmount := 0, soPo := "p" }]
      [{ number := "9", endCustomer := "c", description := "d",
         netUnitPrice := 0, qty := 0, totalAmount := 0, soPo := "p" },
       { number := "9", endCustomer := "c", description := "d",
         netUnitPrice := 0, qty := 0, totalAmount := 0, soPo := "p" }]
      (by decide)⟩

/-! ### Report writing (src lines 272-330) -/

/-- One output CSV cell: the writer emits strings, the integer quantity, and
float-valued cells (prices, totals, scores). -/
inductive Cell where
  | s (v : String)
  | i (v : Int)
  | q (v : Rat)
  deriving DecidableEq

/-- One element of `entry['matches']`: the relevance score and the projected
reference-row fields (src lines 244-247). -/
structure ScoredMatch where
  score : Rat
  data : List (String × String)
  deriving DecidableEq

/-- One element of the `matches` list built by `get_pdf_matches`: a cleaned
record together with its scored candidates. -/
structure OutEntry where
  pdf : PdfRecord
  matchList : List ScoredMatch
  deriving DecidableEq

/-- The fixed header row (src lines 275-279). -/
def headers : List String :=
  ["Number", "End-Customer", "Description", "Qty", "Net Unit Price",
   "Total Amount", "SO/PO Number", "Match Description", "Match Cost",
   "Match Quantity", "Agreement Name", "Match Score"]

/-- The row written for one (record, match) pair (src lines 303-317);
`match['data'][k]` raises `KeyError` when the projected data lacks the key,
modelled by `none`. -/
def matchRow (p : PdfRecord) (m : ScoredMatch) : Option (List Cell) := do
  let d ← lookupStr m.data "Description"
  let c ← lookupStr m.data "Unit Cost"
  let tq ← lookupStr m.data "Total Quantity"
  let a ← lookupStr m.data "Agreement Name"
  pure [Cell.s p.number, Cell.s p.endCustomer, Cell.s p.description,
        Cell.i p.qty, Cell.q p.netUnitPrice, Cell.q p.totalAmount,
        Cell.s p.soPo, Cell.s d, Cell.s c, Cell.s tq, Cell.s a, Cell.q m.score]

/-- The row written for a record with no matches (src lines 319-329): the
seven record cells followed by FOUR empty strings — eleven cells against the
twelve headers. -/
def unmatchedRow (p : PdfRecord) : List Cell :=
  [Cell.s p.number, Cell.s p.endCustomer, Cell.s p.description,
   Cell.i p.qty, Cell.q p.netUnitPrice, Cell.q p.totalAmount,
   Cell.s p.soPo, Cell.s "", Cell.s "", Cell.s "", Cell.s ""]

/-- The output loop (src lines 282-330): `seen` is `seen_numbers`; an entry
whose record id was already seen is skipped entirely; otherwise one row per
match, or the single blank-match row. -/
def writeRowsAux (seen : List String) : List OutEntry → Option (List (List Cell))
  | [] => some []
  | e :: rest =>
    if e.pdf.number ∈ seen then writeRowsAux seen rest
    else if e.matchList.isEmpty then
      (writeRowsAux (e.pdf.number :: seen) rest).map (fun t => unmatchedRow e.pdf :: t)
    else
      match e.matchList.mapM (matchRow e.pdf) with
      | none => none
      | some rows => (writeRowsAux (e.pdf.number :: seen) rest).map (fun t => rows ++ t)

/-- The emitted data rows (below the header row). -/
def writeRows (entries : List OutEntry) : Option (List (List Cell)) :=
  writeRowsAux [] entries

theorem writeRowsAux_skip (e2 : OutEntry) (post : List OutEntry) :
    ∀ (l : List OutEntry) (seen : List String), e2.pdf.number ∈ seen →
      writeRowsAux seen (l ++ e2 :: post) = writeRowsAux seen (l ++ post) := by
  intro l
  induction l with
  | nil =>
    intro seen hseen
    simp only [List.nil_append, writeRowsAux, List.append_eq]
    rw [if_pos hseen]
  | cons x xs ih =>
    intro seen hseen
    simp only [List.cons_append, writeRowsAux, List.append_eq]
    by_cases hx : x.pdf.number ∈ seen
    · rw [if_pos hx, if_pos hx]
      exact ih seen hseen
    · rw [if_neg hx, if_neg hx]
      have hseen' : e2.pdf.number ∈ x.pdf.number :: seen :=
        List.mem_cons_of_mem _ hseen
      by_cases hxm : x.matchList.isEmpty
      · rw [if_pos hxm, if_pos hxm, ih _ hseen']
      · rw [if_neg hxm, if_neg hxm]
        rcases hmm : x.matchList.mapM (matchRow x.pdf) with _ | rows
        · rfl
        · rw [ih _ hseen']

theorem writeRowsAux_dedup (mid post : List OutEntry) (e1 e2 : OutEntry)
    (h : e2.pdf.number = e1.pdf.number) :
    ∀ (pre : List OutEntry) (seen : List String),
      writeRowsAux seen (pre ++ e1 :: (mid ++ e2 :: post)) =
        writeRowsAux seen (pre ++ e1 :: (mid ++ post)) := by
  intro pre
  induction pre with
  | nil =>
    intro seen
    simp only [List.nil_append, writeRowsAux, List.append_eq]
    by_cases h1 : e1.pdf.number ∈ seen
    · rw [if_pos h1, if_pos h1]
      exact writeRowsAux_skip e2 post mid seen (h ▸ h1)
    · rw [if_neg h1, if_neg h1]
      have hmem : e2.pdf.number ∈ e1.pdf.number :: seen := by
        rw [h]
        exact List.mem_cons_self _ _
      by_cases h1m : e1.matchList.isEmpty
      · rw [if_pos h1m, if_pos h1m, writeRowsAux_skip e2 post mid _ hmem]
      · rw [if_neg h1m, if_neg h1m]
        rcases hmm : e1.matchList.mapM (matchRow e1.pdf) with _ | rows
        · rfl
        · rw [writeRowsAux_skip e2 post mid _ hmem]
  | cons x xs ih =>
    intro seen
    simp only [List.cons_append, writeRowsAux, List.append_eq]
    by_cases hx : x.pdf.number ∈ seen
    · rw [if_pos hx, if_pos hx]
      exact ih seen
    · rw [if_neg hx, if_neg hx]
      by_cases hxm : x.matchList.isEmpty
      · rw [if_pos hxm, if_pos hxm, ih _]
      · rw [if_neg hxm, if_neg hxm]
        rcases hmm : x.matchList.mapM (matchRow x.pdf) with _ | rows
        · rfl
        · rw [ih _]

/-- C6: a later entry whose record id equals an earlier entry's id
contributes nothing to the emitted report — removing it changes no row; the
rows for that id are those of the first occurrence (src lines 282-298:
`seen_numbers` with `continue`). -/
theorem c6_dedup_by_id (pre mid post : List OutEntry) (e1 e2 : OutEntry)
    (h : e2.pdf.number = e1.pdf.number) :
    writeRows (pre ++ e1 :: (mid ++ e2 :: post)) =
      writeRows (pre ++ e1 :: (mid ++ post)) :=
  writeRowsAux_dedup mid post e1 e2 h pre []

/-- C6 witness: two entries with id "7" and different content; the output of
both equals the output of the first alone. -/
theorem c6_dedup_by_id_witness :
    writeRows [⟨{ number := "7", endCustomer := "a", description := "d1",
                  netUnitPrice := 1, qty := 1, totalAmount := 1, soPo := "s" }, []⟩,
               ⟨{ number := "7", endCustomer := "b", description := "d2",
                  netUnitPrice := 2, qty := 2, totalAmount := 2, soPo := "t" }, []⟩] =
      writeRows [⟨{ number := "7", endCustomer := "a", description := "d1",
                    netUnitPrice := 1, qty := 1, totalAmount := 1, soPo := "s" }, []⟩] :=
  c6_dedup_by_id [] [] []
    ⟨{ number := "7", endCustomer := "a", description := "d1",
       netUnitPrice := 1, qty := 1, totalAmount := 1, soPo := "s" }, []⟩
    ⟨{ number := "7", endCustomer := "b", description := "d2",
       netUnitPrice := 2, qty := 2, totalAmount := 2, soPo := "t" }, []⟩ rfl

/-- C8 (code bug): the header row declares twelve columns, but the row
emitted for a transaction with zero candidates has only ELEVEN cells — the
seven record fields plus four empty strings (src lines 320-329), leaving the
Match Score column with no value instead of the five blank match columns the
specification describes. A (record, candidate) row does fill all twelve
columns. -/
theorem c8_unmatched_row_has_eleven_cells :
    (writeRows [⟨{ number := "1", endCustomer := "c", description := "d",
                   netUnitPrice := 0, qty := 0, totalAmount := 0, soPo := "p" }, []⟩]).map
        (fun rows => rows.map List.length) = some [11] ∧
      headers.length = 12 ∧
      (writeRows [⟨{ number := "1", endCustomer := "c", description := "d",
                     netUnitPrice := 0, qty := 0, totalAmount := 0, soPo := "p" },
                   [{ score := 50, data := [("Description", "x"), ("Unit Cost", "0"),
                      ("Total Quantity", "0"), ("Agreement Name", "a")] }]⟩]).map
        (fun rows => rows.map List.length) = some [12] :=
  ⟨by decide, by decide, by decide⟩

end PdfComparer
